import Mathlib

/-!
Verification of `runepub.py` (Runeberg book fetcher / EPUB builder).

The source is shallowly embedded: lines of text are `List Char`, file
trees are association lists from paths to contents, exceptions are
`Except`, and the network is a function from URLs to optional responses.
Python string primitives (`strip`, `split`, `count`, `replace`, `int`,
`in`, `"{0:04d}".format`) are modelled by executable Lean functions below.
-/

deriving instance DecidableEq for Except

namespace Runepub

/-- Characters treated as whitespace by Python `str.strip()` / `str.split()`
(ASCII fragment: space, tab, newline, carriage return, vertical tab, form feed). -/
def pyWs (c : Char) : Bool :=
  c = ' ' || c = '\t' || c = '\n' || c = '\r' || c = '\x0b' || c = '\x0c'

/-- Python `str.strip()`: drop leading and trailing whitespace. -/
def pyStrip (l : List Char) : List Char :=
  ((l.dropWhile pyWs).reverse.dropWhile pyWs).reverse

/-- Python `s.split(sep)` for a one-character separator: split at every
occurrence, keeping empty parts. -/
def splitChar (sep : Char) : List Char → List (List Char)
  | [] => [[]]
  | c :: rest =>
    match splitChar sep rest with
    | [] => [[]]
    | h :: t => if c = sep then [] :: h :: t else (c :: h) :: t

/-- Python `s.split(sep, maxsplit)` for a one-character separator:
split at the first `n` occurrences, from the left. -/
def splitCharLimit (sep : Char) : Nat → List Char → List (List Char)
  | 0, l => [l]
  | n + 1, l =>
    let pre := l.takeWhile (· ≠ sep)
    match l.dropWhile (· ≠ sep) with
    | [] => [l]
    | _ :: post => pre :: splitCharLimit sep n post

/-- Helper for `splitWs`: accumulate the current (reversed) token. -/
def splitWsAux : List Char → List Char → List (List Char)
  | [], acc => if acc = [] then [] else [acc.reverse]
  | c :: rest, acc =>
    if pyWs c then
      if acc = [] then splitWsAux rest [] else acc.reverse :: splitWsAux rest []
    else splitWsAux rest (c :: acc)

/-- Python `s.split()` with no argument: split on whitespace runs,
producing no empty tokens. -/
def splitWs (l : List Char) : List (List Char) := splitWsAux l []

/-- Decimal value of a list of digit characters (most significant first). -/
def digVal (l : List Char) : Nat :=
  l.foldl (fun acc c => 10 * acc + (c.toNat - '0'.toNat)) 0

/-- Digit-group parsing used by Python `int(s)`: groups of decimal digits
separated by single underscores, each group nonempty. Returns the value. -/
def pyDigits (l : List Char) : Option Nat :=
  let parts := splitChar '_' l
  if parts.all (fun p => !p.isEmpty && p.all Char.isDigit) then
    some (digVal (l.filter (· ≠ '_')))
  else none

/-- Python `int(s)`: strip whitespace, optional sign, decimal digits
(with optional single underscores between digits); `none` models `ValueError`. -/
def pyInt (l : List Char) : Option Int :=
  let t := pyStrip l
  match t with
  | '+' :: rest => (pyDigits rest).map Int.ofNat
  | '-' :: rest => (pyDigits rest).map (fun n => -(Int.ofNat n))
  | _ => (pyDigits t).map Int.ofNat

/-- Python substring membership `pat in s`. -/
def hasSub (pat : List Char) : List Char → Bool
  | [] => pat.isEmpty
  | c :: rest => pat.isPrefixOf (c :: rest) || hasSub pat rest

/-- Decimal digit string of a natural number zero-padded on the left to
width `w`. -/
def padNat (w : Nat) (n : Nat) : List Char :=
  let s := (Nat.repr n).data
  List.replicate (w - s.length) '0' ++ s

/-- Python `"{0:04d}".format(n)` for an integer: width 4, the sign counts
toward the width. -/
def formatPy04 (n : Int) : List Char :=
  if n < 0 then '-' :: padNat 3 (-n).toNat else padNat 4 n.toNat

/-- Chapter kinds, from `class ChapterType(Enum)`. -/
inductive ChapterType where
  | INDEX
  | REGULAR
deriving DecidableEq, Repr

/-- A chapter parsed from `Articles.lst`, from `class RuneChapter`.
Ranges are kept exactly as the code builds them: lists of integers
(`entry.split("-")` mapped through `int`, or a lone value doubled). -/
structure RuneChapter where
  type : ChapterType
  index : Nat
  title : List Char
  ranges : List (List Int)
deriving DecidableEq, Repr

/-- Exceptions `_parse_unpacked_rune_chapters` can raise: the explicit
`Exception("Unknown chapter definition ...")`, and Python `ValueError`
(from `int()` on a malformed token, or from unpacking a split with fewer
than three parts). -/
inductive ParseErr where
  | unknownChapter (line : List Char)
  | valueError
deriving DecidableEq, Repr

/-- Range-expression parsing in `_parse_unpacked_rune_chapters`: each
whitespace-separated entry containing `-` is split on `-` and each part
passed to `int()`; a lone entry `n` becomes `[int(n), int(n)]`. -/
def parseRanges (rangeexpr : List Char) : Except ParseErr (List (List Int)) :=
  go (splitWs rangeexpr)
where
  go : List (List Char) → Except ParseErr (List (List Int))
    | [] => .ok []
    | entry :: rest =>
      let parsed : Except ParseErr (List Int) :=
        if entry.contains '-' then
          (splitChar '-' entry).foldr
            (fun part acc =>
              match pyInt part, acc with
              | some v, .ok vs => .ok (v :: vs)
              | none, _ => .error .valueError
              | _, .error e => .error e)
            (.ok [])
        else
          match pyInt entry with
          | some v => .ok [v, v]
          | none => .error .valueError
      match parsed, go rest with
      | .ok r, .ok rs => .ok (r :: rs)
      | .error e, _ => .error e
      | _, .error e => .error e

/-- The loop of `_parse_unpacked_rune_chapters`, carrying the running
chapter counter `i`. Each line: text after the first `#` is dropped, the
remainder stripped; empty lines and lines without `|` are skipped; other
lines are split on the first two `|` into stripped fields. -/
def parseLoop : List (List Char) → Nat → Except ParseErr (List RuneChapter)
  | [], _ => .ok []
  | line :: rest, i =>
    let line := line.takeWhile (· ≠ '#')
    let line := pyStrip line
    if line.isEmpty then parseLoop rest i
    else if line.contains '|' then
      match (splitCharLimit '|' 2 line).map pyStrip with
      | [ty, title, rangeexpr] =>
        if ty = [] || ty = "index".data then
          let ct := if ty = [] then ChapterType.REGULAR else ChapterType.INDEX
          match parseRanges rangeexpr, parseLoop rest (i + 1) with
          | .ok ranges, .ok cs => .ok (⟨ct, i, title, ranges⟩ :: cs)
          | .error e, _ => .error e
          | _, .error e => .error e
        else if ty = "-".data then
          -- Subchapters are covered inside chapters
          parseLoop rest i
        else
          .error (.unknownChapter line)
      | _ =>
        -- unpacking `type, title, rangeexpr = ...` with fewer than 3 values
        .error .valueError
    else parseLoop rest i

/-- Function `_parse_unpacked_rune_chapters`, applied to the lines of `Articles.lst`. -/
def parseArticles (lines : List (List Char)) : Except ParseErr (List RuneChapter) :=
  parseLoop lines 0

/-- An EPUB chapter, from `class EPubChapter`. -/
structure EPubChapter where
  type : ChapterType
  index : Nat
  title : List Char
deriving DecidableEq, Repr

/-- Method `EPubChapter.id`: `"chapter{0:04d}".format(self.index())`. -/
def EPubChapter.chId (c : EPubChapter) : List Char :=
  "chapter".data ++ formatPy04 (Int.ofNat c.index)

/-- Method `EPubChapter.filename`: `self.id() + ".xhtml"`. -/
def EPubChapter.filename (c : EPubChapter) : List Char :=
  c.chId ++ ".xhtml".data

/-- The markup normalization at the top of the chapter loop in `build_epub`:
if the counts of `<` and `>` differ, both characters are removed from the
line (Python `line.replace("<", "").replace(">", "")`). -/
def normalizeLine (l : List Char) : List Char :=
  if l.count '<' ≠ l.count '>' then
    (l.filter (· ≠ '<')).filter (· ≠ '>')
  else l

/-- The `ScopeState` enum local to `build_epub`. -/
inductive ScopeState where
  | BEFORE
  | WITHIN
  | AFTER
deriving DecidableEq, Repr

/-- Python `"<chapter" in line`. -/
def hasOpen (l : List Char) : Bool := hasSub "<chapter".data l

/-- Python `"</chapter>" in line`. -/
def hasClose (l : List Char) : Bool := hasSub "</chapter>".data l

/-- One iteration of the REGULAR-chapter branch of the loop in `build_epub`:
update the scope state, resetting the buffer on the first `<chapter`, and
append the line to the buffer when the (updated) state is not AFTER and the
line contains neither marker. -/
def scopeStep (st : ScopeState × List (List Char)) (line : List Char) :
    ScopeState × List (List Char) :=
  let upd : ScopeState × List (List Char) :=
    match st.1 with
    | .BEFORE => if hasOpen line then (.WITHIN, []) else (.BEFORE, st.2)
    | .WITHIN => if hasClose line then (.AFTER, st.2) else (.WITHIN, st.2)
    | .AFTER => (.AFTER, st.2)
  if upd.1 ≠ ScopeState.AFTER && !hasOpen line && !hasClose line then
    (upd.1, upd.2 ++ [line])
  else upd

/-- Buffer contents after running the REGULAR-chapter state machine of
`build_epub` over all lines, starting BEFORE with an empty buffer. -/
def regularBody (lines : List (List Char)) : List (List Char) :=
  (lines.foldl scopeStep (ScopeState.BEFORE, [])).2

/-- Lines emitted into the body of a chapter by the loop in `build_epub`
(after normalization): REGULAR chapters go through the scope machine,
INDEX chapters are written straight to the output stream. -/
def chapterBodyLines (t : ChapterType) (lines : List (List Char)) :
    List (List Char) :=
  match t with
  | .REGULAR => regularBody lines
  | .INDEX => lines

/-- Python `range(a, b)` over integers: `a, a+1, ..., b-1`. -/
def intRange (a b : Int) : List Int :=
  (List.range (b - a).toNat).map (fun k => a + Int.ofNat k)

/-- Generator `_unpacked_range_reader`: for each range `r`, for each page index from
`r[0]` to `r[1]` inclusive, open `Pages/{0:04d}.txt` and yield each of its
lines stripped. The page store `fs` maps a file name inside `Pages/` to its
lines; a missing file models the `FileNotFoundError` from `open`. -/
def rangeReader (fs : List Char → Option (List (List Char))) :
    List (List Int) → Except Unit (List (List Char))
  | [] => .ok []
  | r :: rs =>
    match readPages fs (intRange (r.headD 0) (r.getD 1 0 + 1)),
        rangeReader fs rs with
    | .ok ls, .ok rest => .ok (ls ++ rest)
    | .error e, _ => .error e
    | _, .error e => .error e
where
  readPages (fs : List Char → Option (List (List Char))) :
      List Int → Except Unit (List (List Char))
    | [] => .ok []
    | i :: is =>
      match fs (formatPy04 i ++ ".txt".data), readPages fs is with
      | some ls, .ok rest => .ok (ls.map pyStrip ++ rest)
      | none, _ => .error ()
      | _, .error e => .error e

/-- Python `os.path.join` for one component (neither side empty, no trailing slash). -/
def pjoin (a b : List Char) : List Char := a ++ '/' :: b

/-- Update an association-list file tree: writing a file creates or
overwrites the entry at that path. -/
def setFile {β : Type} (fs : List (List Char × β)) (k : List Char) (v : β) :
    List (List Char × β) :=
  (k, v) :: fs.filter (fun e => !(e.1 == k))

/-- Constant `RUNEDIR = os.path.join(str(Path.home()), ".runepub")`, with the home
directory as a parameter. -/
def runeDir (home : List Char) : List Char := pjoin home ".runepub".data

/-- Function `_get_build_dir`. -/
def buildDirOf (home bookname : List Char) : List Char :=
  pjoin (pjoin (runeDir home) bookname) "build".data

/-- Content of the `mimetype` file written by `EpubWriter.__init__`
(no trailing newline: a single `write` then `flush`). -/
def mimetypeContent : String := "application/epub+zip"

/-- Content of `META-INF/container.xml` written by `EpubWriter.__init__`. -/
def containerXml : String :=
  "<?xml version=\"1.0\" encoding=\"utf-8\"?>\n" ++
  "<container version=\"1.0\" xmlns=\"urn:oasis:names:tc:opendocument:xmlns:container\">\n" ++
  "<rootfiles>\n" ++
  "<rootfile full-path=\"OEBPS/book.opf\" media-type=\"application/oebps-package+xml\"/>\n" ++
  "</rootfiles>\n" ++
  "</container>\n"

/-- Content of `OEBPS/book.opf`: the header written by
`EpubWriter.__init__` plus the manifest and spine written in
`EpubWriter.__exit__` from the accumulated chapter list. -/
def opfContent (title author : String) (chapters : List EPubChapter) : String :=
  "<?xml version=\"1.0\" encoding=\"utf-8\"?>\n" ++
  "<package version=\"2.0\" xmlns=\"http://www.idpf.org/2007/opf\"\n" ++
  "\t unique-identifier=\"abcdef\">\n" ++
  "  <metadata xmlns:dc=\"http://purl.org/dc/elements/1.1/\"\n" ++
  "\t    xmlns:opf=\"http://www.idpf.org/2007/opf\">\n" ++
  "    <dc:title>" ++ title ++ "</dc:title>\n" ++
  "    <dc:creator opf:role=\"aut\">" ++ author ++ "</dc:creator>\n" ++
  "    <dc:language>en-US</dc:language>\n" ++
  "    <dc:identifier id=\"abcdef\">abcdef</dc:identifier>\n" ++
  "  </metadata>\n" ++
  "  <manifest>\n" ++
  String.join (chapters.map (fun c =>
    "    <item id=\"" ++ String.mk c.chId ++ "\" href=\"" ++
    String.mk c.filename ++ "\" media-type=\"application/xhtml+xml\" />\n")) ++
  "    <item id=\"ncx\" href=\"book.ncx\" media-type=\"application/x-dtbncx+xml\" />\n" ++
  "  </manifest>\n" ++
  "  <spine toc=\"ncx\">\n" ++
  String.join (chapters.map (fun c =>
    "    <itemref idref=\"" ++ String.mk c.chId ++ "\" />\n")) ++
  "  </spine>\n" ++
  "</package>\n"

/-- Content of `OEBPS/book.ncx`: header from `EpubWriter.__init__` plus
the navMap written in `EpubWriter.__exit__`. -/
def ncxContent (title : String) (chapters : List EPubChapter) : String :=
  "<?xml version=\"1.0\" encoding=\"utf-8\"?>\n" ++
  "<ncx version=\"2005-1\" xml:lang=\"en\" xmlns=\"http://www.daisy.org/z3986/2005/ncx/\">\n" ++
  "  <head>\n" ++
  "    <meta name=\"dtb:uid\" content=\"abcdef\" />\n" ++
  "    <meta name=\"dtb:depth\" content=\"1\" />\n" ++
  "    <meta name=\"dtb:totalPageCount\" content=\"0\" />\n" ++
  "    <meta name=\"dtb:maxPageNumber\" content=\"0\" />\n" ++
  "  </head>\n" ++
  "  <docTitle>\n" ++
  "    <text>" ++ title ++ "</text>\n" ++
  "  </docTitle>\n" ++
  "  <navMap>\n" ++
  String.join (chapters.map (fun c =>
    "    <navPoint id=\"" ++ String.mk c.chId ++ "\" playOrder=\"" ++
    Nat.repr c.index ++ "\">\n" ++
    "      <navLabel><text>" ++ String.mk c.title ++ "</text></navLabel>\n" ++
    "      <content src=\"" ++ String.mk c.filename ++ "\"/>\n" ++
    "    </navPoint>\n")) ++
  "  </navMap>\n" ++
  "</ncx>\n"

/-- The fixed XHTML chapter header written by `build_epub` (lines up to
`<body>`). -/
def xhtmlHeader : String :=
  "<?xml version=\"1.0\" encoding=\"utf-8\"?>\n" ++
  "<!DOCTYPE html PUBLIC \"-//W3C//DTD XHTML 1.1//EN\" \"http://www.w3.org/TR/xhtml11/DTD/xhtml11.dtd\">\n" ++
  "<html xmlns=\"http://www.w3.org/1999/xhtml\" xml:lang=\"en\">\n" ++
  "<head>\n" ++
  "<meta http-equiv=\"Content-Type\" content=\"application/xhtml+xml; charset=utf-8\" />\n" ++
  "</head>\n" ++
  "\n" ++
  "<body>\n"

/-- The XHTML file `build_epub` writes for one chapter: header, normalized
body lines (INDEX lines streamed directly, REGULAR lines via the scope
machine and the buffer), closing tags. -/
def chapterXhtml (t : ChapterType) (lines : List (List Char)) : String :=
  xhtmlHeader ++
  String.join ((chapterBodyLines t (lines.map normalizeLine)).map
    (fun l => String.mk (l ++ ['\n']))) ++
  "</body>\n" ++ "</html>\n"

/-- The build directory tree after `build_epub`: the files created by
`EpubWriter` plus one XHTML file per chapter, keyed by absolute path
(`os.walk` lists the root's own files before descending into the two
subdirectories it created). -/
def buildFiles (home bookname : List Char) (title author : String)
    (chapterOut : List (EPubChapter × String)) : List (List Char × String) :=
  let bd := buildDirOf home bookname
  (pjoin bd "mimetype".data, mimetypeContent) ::
  (pjoin (pjoin bd "OEBPS".data) "book.opf".data,
    opfContent title author (chapterOut.map Prod.fst)) ::
  (pjoin (pjoin bd "OEBPS".data) "book.ncx".data,
    ncxContent title (chapterOut.map Prod.fst)) ::
  chapterOut.map (fun p =>
    (pjoin (pjoin bd "OEBPS".data) p.1.filename, p.2)) ++
  [(pjoin (pjoin bd "META-INF".data) "container.xml".data, containerXml)]

/-- Archive name used by `zip_epub`: `file_path[len(build_dir):]`, after
which Python's `zipfile.ZipInfo.from_file` strips leading path separators. -/
def zipArcName (bdLen : Nat) (p : List Char) : List Char :=
  (p.drop bdLen).dropWhile (· = '/')

/-- The entry list of the zip archive `zip_epub` writes: every file under
the build directory, under its build-relative archive name. -/
def zipEntries (bd : List Char) (tree : List (List Char × String)) :
    List (List Char × String) :=
  tree.map (fun e => (zipArcName bd.length e.1, e.2))

/-- Dataclass `DownloadItem`. -/
structure DownloadItem where
  url : List Char
  zip_filename : List Char
deriving DecidableEq, Repr

/-- Function `_get_download_items`: a single text archive (the images line is
commented out in the source). -/
def getDownloadItems (bookname : List Char) : List DownloadItem :=
  [⟨"http://runeberg.org/download.pl?mode=txtzip&work=".data ++ bookname,
    "txt.zip".data⟩]

/-- Archive content: extracted entry names mapped to text contents. -/
abbrev ZipData : Type := List (List Char × String)

/-- Pipeline stages of `main`. -/
inductive Stage where
  | download
  | unpack
  | build
  | package
deriving DecidableEq, Repr

/-- Exceptions the program can raise; none are caught anywhere, so they
surface as the `Except` error of the run. -/
inductive PyExc where
  | fileNotFound
  | keyError
  | parse (e : ParseErr)
  | argError
deriving DecidableEq, Repr

/-- Program state: the network, the per-book directories under `RUNEDIR`
(downloaded archives, the temp directory, the unpack tree, the build tree),
the current working directory, the log of network requests made, and the
trace of completed pipeline stages. -/
structure World where
  home : List Char
  net : List Char → Option ZipData
  downloaded : List (List Char × ZipData)
  temp : List (List Char × ZipData)
  unpacked : List (List Char × String)
  buildT : List (List Char × String)
  cwd : List (List Char × ZipData)
  requests : List (List Char)
  trace : List Stage

/-- One iteration of the loop in `download`: skip items whose archive is
already in the downloaded directory; otherwise fetch the URL into the temp
directory and move the file into place. A failed request leaves no temp
file, so the `shutil.move` raises unless a stale temp file is present. -/
def downloadStep (w : World) (item : DownloadItem) : Except PyExc World :=
  if (w.downloaded.lookup item.zip_filename).isSome then .ok w
  else
    let w := { w with requests := w.requests ++ [item.url] }
    match w.net item.url with
    | some archive =>
      .ok { w with
            downloaded := setFile w.downloaded item.zip_filename archive,
            temp := w.temp.filter (fun e => !(e.1 == item.zip_filename)) }
    | none =>
      match w.temp.lookup item.zip_filename with
      | some stale =>
        .ok { w with
              downloaded := setFile w.downloaded item.zip_filename stale,
              temp := w.temp.filter (fun e => !(e.1 == item.zip_filename)) }
      | none => .error .fileNotFound

/-- The item loop of `download` (the trailing `os.rmdir` only removes an
empty temp directory and touches no file). -/
def downloadLoop (w : World) : List DownloadItem → Except PyExc World
  | [] => .ok w
  | item :: rest =>
    match downloadStep w item with
    | .ok w1 => downloadLoop w1 rest
    | .error e => .error e

/-- Function `download(bookname)`, recording stage completion in the trace. -/
def downloadW (bookname : List Char) (w : World) : Except PyExc World :=
  match downloadLoop w (getDownloadItems bookname) with
  | .ok w1 => .ok { w1 with trace := w1.trace ++ [Stage.download] }
  | .error e => .error e

/-- Function `unpack(bookname)`: wipe the unpack directory, then `extractall` each
downloaded archive into it (later archives overwrite earlier entries);
a missing archive raises. -/
def unpackW (bookname : List Char) (w : World) : Except PyExc World :=
  match go ([] : List (List Char × String)) (getDownloadItems bookname) w with
  | .ok tree =>
    .ok { w with unpacked := tree, trace := w.trace ++ [Stage.unpack] }
  | .error e => .error e
where
  go (acc : List (List Char × String)) :
      List DownloadItem → World → Except PyExc (List (List Char × String))
    | [], _ => .ok acc
    | item :: rest, w =>
      match w.downloaded.lookup item.zip_filename with
      | some archive =>
        go (archive.foldl (fun t e => setFile t e.1 e.2) acc) rest w
      | none => .error .fileNotFound

/-- Line sequence of a text file as Python's line iteration yields it,
modulo the trailing newline each non-final line carries (every consumer in
this program strips the line immediately, so the terminator is dropped
here). -/
def pyLines (l : List Char) : List (List Char) :=
  let parts := splitChar '\n' l
  if parts.getLast? = some [] then parts.dropLast else parts

/-- Function `_parse_unpacked_metadata`: strip each line, and for lines containing
`:` split on the first `:` into a stripped key and value; later duplicate
keys overwrite earlier ones. -/
def parseMetadata (lines : List (List Char)) : List (List Char × List Char) :=
  lines.foldl (fun acc line =>
    let line := pyStrip line
    if line.contains ':' then
      match (splitCharLimit ':' 1 line).map pyStrip with
      | [k, v] => setFile acc k v
      | _ => acc
    else acc) []

/-- Build all chapter XHTML files: for each parsed chapter, read its pages
through `_unpacked_range_reader` and render the body. -/
def buildChapters (fs : List Char → Option (List (List Char))) :
    List RuneChapter → Except PyExc (List (EPubChapter × String))
  | [] => .ok []
  | c :: cs =>
    match rangeReader fs c.ranges, buildChapters fs cs with
    | .ok lines, .ok rest =>
      .ok ((⟨c.type, c.index, c.title⟩, chapterXhtml c.type lines) :: rest)
    | .error _, _ => .error .fileNotFound
    | _, .error e => .error e

/-- Function `build_epub(bookname, author)`: parse `Metadata` (the title comes from
the `TITLE` key), parse `Articles.lst`, build every chapter body from the
page files, and lay out the EPUB build tree. -/
def buildW (bookname : List Char) (author : String) (w : World) :
    Except PyExc World :=
  match w.unpacked.lookup "Metadata".data with
  | none => .error .fileNotFound
  | some metaContent =>
    match (parseMetadata (pyLines metaContent.data)).lookup "TITLE".data with
    | none => .error .keyError
    | some title =>
      match w.unpacked.lookup "Articles.lst".data with
      | none => .error .fileNotFound
      | some artContent =>
        match parseArticles (pyLines artContent.data) with
        | .error e => .error (.parse e)
        | .ok chapters =>
          let fs := fun name =>
            (w.unpacked.lookup ("Pages/".data ++ name)).map
              (fun s => pyLines s.data)
          match buildChapters fs chapters with
          | .error e => .error e
          | .ok chapterOut =>
            .ok { w with
                  buildT := buildFiles w.home bookname
                    (String.mk title) author chapterOut,
                  trace := w.trace ++ [Stage.build] }

/-- Function `zip_epub(bookname)`: archive every file of the build tree under its
build-relative name into `./<bookname>.epub` in the working directory. -/
def zipW (bookname : List Char) (w : World) : World :=
  let outName := pjoin ".".data (bookname ++ ".epub".data)
  { w with
    cwd := setFile w.cwd outName
      (zipEntries (buildDirOf w.home bookname) w.buildT),
    trace := w.trace ++ [Stage.package] }

/-- Function `main()`: `argparse` rejects a run unless both required flags `--id`
and `--author` are present; then the four stages run in order. -/
def mainW (idArg authorArg : Option String) (w : World) :
    Except PyExc World :=
  match idArg, authorArg with
  | some bookname, some author =>
    match downloadW bookname.data w with
    | .error e => .error e
    | .ok w1 =>
      match unpackW bookname.data w1 with
      | .error e => .error e
      | .ok w2 =>
        match buildW bookname.data author w2 with
        | .error e => .error e
        | .ok w3 => .ok (zipW bookname.data w3)
  | _, _ => .error .argError

/-- Trace of a finished run (empty when the run raised). -/
def traceOf (r : Except PyExc World) : List Stage :=
  match r with
  | .ok w => w.trace
  | .error _ => []

/-- Working-directory contents after a finished run (empty when the run
raised). -/
def cwdOf (r : Except PyExc World) : List (List Char × ZipData) :=
  match r with
  | .ok w => w.cwd
  | .error _ => []

/-- A line containing neither chapter marker. -/
def noMarker (l : List Char) : Bool := !hasOpen l && !hasClose l

/-- Specification-side description of the REGULAR chapter body, following
the claim's words: the lines strictly between the first `<chapter` line
and the first subsequent `</chapter>` line, excluding marker lines; when
no `<chapter` occurs, every marker-free line. -/
def specRegularBody (lines : List (List Char)) : List (List Char) :=
  if lines.any hasOpen then
    (((lines.dropWhile (fun l => !hasOpen l)).tail).takeWhile
      (fun l => !hasClose l)).filter noMarker
  else lines.filter noMarker

/-- The per-line preprocessing of `_parse_unpacked_rune_chapters`: text
after the first `#` is discarded and the remainder stripped. -/
def processedLine (l : List Char) : List Char :=
  pyStrip (l.takeWhile (· ≠ '#'))

/-- The inclusive interval of page numbers `a, a+1, ..., b` (empty when
`b < a`). -/
def natRangeIncl (a b : Nat) : List Nat :=
  (List.range (b + 1 - a)).map (a + ·)

/-- Specification-side reading of one range token, following the claim's
words: `a-b` yields the interval `[a, b]`, a lone number `n` yields the
degenerate interval `[n, n]`. -/
def specToken (t : List Char) : List Int :=
  if t.contains '-' then
    [Int.ofNat (digVal (t.takeWhile (· ≠ '-'))),
     Int.ofNat (digVal ((t.dropWhile (· ≠ '-')).tail))]
  else [Int.ofNat (digVal t), Int.ofNat (digVal t)]

/-- A range token the claim describes: a plain number, or two numbers
joined by a single `-`. -/
def tokenWF (t : List Char) : Bool :=
  match splitChar '-' t with
  | [a] => !a.isEmpty && a.all Char.isDigit
  | [a, b] => !a.isEmpty && a.all Char.isDigit &&
      !b.isEmpty && b.all Char.isDigit
  | _ => false

/-- An index-file line inside the claim's domain: blank after comment
stripping, without `|`, or with at least two `|`, a known type field, and
well-formed range tokens (unless the line is a skipped subchapter). -/
def lineWF (l : List Char) : Bool :=
  let p := processedLine l
  p.isEmpty || !p.contains '|' ||
    (match (splitCharLimit '|' 2 p).map pyStrip with
     | [ty, _, r] =>
       ty = "-".data ||
         ((ty = [] || ty = "index".data) && (splitWs r).all tokenWF)
     | _ => false)

/-- Specification-side reading of one index-file line, following the
claim's words: discard text after the first `#` and strip; skip blank
lines and lines without `|`; otherwise split on the first two `|` into a
type field, a title and a range expression, and read each token of the
range expression as an interval (subchapter lines, type field `-`, yield
no chapter). -/
def specLine (l : List Char) : Option (List Char × List (List Int)) :=
  let p := processedLine l
  if p.isEmpty then none
  else if !p.contains '|' then none
  else
    let ty := pyStrip (p.takeWhile (· ≠ '|'))
    let rest := (p.dropWhile (· ≠ '|')).tail
    let title := pyStrip (rest.takeWhile (· ≠ '|'))
    let rexpr := pyStrip ((rest.dropWhile (· ≠ '|')).tail)
    if ty = "-".data then none
    else some (title, (splitWs rexpr).map specToken)

/-- The stripped type field of an index-file line (text before the first
`|` of the processed line, stripped). -/
def typeFieldOf (l : List Char) : List Char :=
  pyStrip ((processedLine l).takeWhile (· ≠ '|'))

/-- An index-file line that is well formed except possibly for its type
field: blank, without `|`, or with at least two `|` and, when its type
field would let parsing reach the range expression, well-formed tokens. -/
def lineWFexceptType (l : List Char) : Bool :=
  let p := processedLine l
  p.isEmpty || !p.contains '|' ||
    (match (splitCharLimit '|' 2 p).map pyStrip with
     | [ty, _, r] =>
       !(ty = [] || ty = "index".data) || (splitWs r).all tokenWF
     | _ => false)

/-- An index-file line whose type field is none of the empty string,
`index`, `-`. -/
def badType (l : List Char) : Bool :=
  let p := processedLine l
  !p.isEmpty && p.contains '|' &&
    (match (splitCharLimit '|' 2 p).map pyStrip with
     | [ty, _, _] => !(ty = [] || ty = "index".data || ty = "-".data)
     | _ => false)

/-- Page store used by the witness runs: pages `0001` and `0002` exist. -/
def fsW : List Char → Option (List (List Char)) := fun name =>
  if name = "0001.txt".data then some [" alpha ".data, "beta".data]
  else if name = "0002.txt".data then some ["gamma".data]
  else none

/-- Archive served by the witness network: a minimal valid book. -/
def archW : ZipData :=
  [("Metadata".data, "TITLE: T\n"),
   ("Articles.lst".data, "|A|1\n"),
   ("Pages/0001.txt".data, "hello\n")]

/-- Witness world for full pipeline runs: empty directories, a network
that serves `archW` for every URL. -/
def wRun : World :=
  { home := "/h".data, net := fun _ => some archW, downloaded := [],
    temp := [], unpacked := [], buildT := [], cwd := [], requests := [],
    trace := [] }

/-- Witness world for the download claim: the text archive is already in
the downloaded directory and the network would fail. -/
def wHave : World :=
  { home := "/h".data, net := fun _ => none,
    downloaded := [("txt.zip".data, ([] : ZipData))], temp := [],
    unpacked := [], buildT := [], cwd := [], requests := [], trace := [] }

/-! ## Theorems -/

theorem foldl_scopeStep_after (ls : List (List Char)) (b : List (List Char)) :
    ls.foldl scopeStep (ScopeState.AFTER, b) = (ScopeState.AFTER, b) := by
  induction ls with
  | nil => rfl
  | cons l ls ih => simpa [scopeStep] using ih

theorem foldl_scopeStep_within (ls : List (List Char)) (b : List (List Char)) :
    (ls.foldl scopeStep (ScopeState.WITHIN, b)).2 =
      b ++ (ls.takeWhile (fun l => !hasClose l)).filter noMarker := by
  induction ls generalizing b with
  | nil => simp
  | cons l ls ih =>
    by_cases hc : hasClose l
    · simp [List.foldl_cons, scopeStep, hc, foldl_scopeStep_after,
        List.takeWhile_cons]
    · by_cases ho : hasOpen l
      · simp [List.foldl_cons, scopeStep, hc, ho, ih, List.takeWhile_cons,
          noMarker]
      · simp [List.foldl_cons, scopeStep, hc, ho, ih, List.takeWhile_cons,
          noMarker]

theorem foldl_scopeStep_before (ls : List (List Char)) (b : List (List Char)) :
    (ls.foldl scopeStep (ScopeState.BEFORE, b)).2 =
      if ls.any hasOpen then specRegularBody ls
      else b ++ ls.filter noMarker := by
  induction ls generalizing b with
  | nil => simp
  | cons l ls ih =>
    by_cases ho : hasOpen l
    · simp [List.foldl_cons, scopeStep, ho, foldl_scopeStep_within,
        specRegularBody, List.dropWhile_cons, List.any_cons]
    · have hspec : (l :: ls).any hasOpen = ls.any hasOpen := by
        simp [List.any_cons, ho]
      by_cases hrest : ls.any hasOpen
      · by_cases hc : hasClose l
        · simp [List.foldl_cons, scopeStep, ho, hc, ih, hrest, hspec,
            specRegularBody, List.dropWhile_cons]
        · simp [List.foldl_cons, scopeStep, ho, hc, ih, hrest, hspec,
            specRegularBody, List.dropWhile_cons]
      · by_cases hc : hasClose l
        · simp [List.foldl_cons, scopeStep, ho, hc, ih, hrest, hspec,
            List.filter_cons, noMarker]
        · simp [List.foldl_cons, scopeStep, ho, hc, ih, hrest, hspec,
            List.filter_cons, noMarker]

/-- C9: for a REGULAR chapter the emitted body is exactly the lines
strictly between the first `<chapter` line and the first subsequent
`</chapter>` line, excluding marker lines; with no `<chapter` marker every
marker-free line is emitted; INDEX chapters pass every line through. -/
theorem C9_chapter_scope_machine (lines : List (List Char)) :
    chapterBodyLines ChapterType.REGULAR lines = specRegularBody lines ∧
    chapterBodyLines ChapterType.INDEX lines = lines := by
  constructor
  · show regularBody lines = _
    unfold regularBody
    rw [foldl_scopeStep_before]
    by_cases h : lines.any hasOpen
    · simp [h]
    · simp [h, specRegularBody]
  · rfl

/-- C3: during chapter-body construction, a line whose `<` count differs
from its `>` count has all `<` and `>` characters removed before further
processing, and a line with balanced counts is left unchanged by this
normalization step. -/
theorem C3_angle_bracket_normalization (l : List Char) :
    normalizeLine l =
      if l.count '<' = l.count '>' then l
      else l.filter (fun c => !(c = '<' || c = '>')) := by
  unfold normalizeLine
  by_cases h : l.count '<' = l.count '>'
  · simp [h]
  · simp only [h, if_neg, ne_eq, not_false_iff, if_true, if_false]
    rw [List.filter_filter]
    apply List.filter_congr
    intro x _
    by_cases h1 : x = '<' <;> by_cases h2 : x = '>' <;> simp [h1, h2]

theorem formatPy04_ofNat (n : Nat) : formatPy04 (Int.ofNat n) = padNat 4 n := by
  simp [formatPy04]

theorem intRange_ofNat (a b : Nat) :
    intRange (Int.ofNat a) (Int.ofNat b + 1) =
      (natRangeIncl a b).map Int.ofNat := by
  unfold intRange natRangeIncl
  have hlen : ((Int.ofNat b + 1) - Int.ofNat a).toNat = b + 1 - a := by
    simp only [Int.ofNat_eq_coe]
    omega
  rw [hlen, List.map_map]
  apply List.map_congr_left
  intro k _
  simp only [Function.comp_apply, Int.ofNat_eq_coe]
  push_cast
  ring

theorem readPages_ok (fs : List Char → Option (List (List Char)))
    (is : List Int)
    (h : ∀ i ∈ is, (fs (formatPy04 i ++ ".txt".data)).isSome) :
    rangeReader.readPages fs is =
      .ok (is.flatMap fun i =>
        ((fs (formatPy04 i ++ ".txt".data)).getD []).map pyStrip) := by
  induction is with
  | nil => rfl
  | cons i is ih =>
    have hi := h i (by simp)
    obtain ⟨v, hv⟩ := Option.isSome_iff_exists.mp hi
    have hrest := ih (fun j hj => h j (by simp [hj]))
    unfold rangeReader.readPages
    rw [hv, hrest]
    simp [hv]

/-- C2: for a chapter whose ranges are intervals `[a, b]`, the page reader
yields the stripped lines of exactly the page files `a` through `b`
inclusive for each interval, in interval order, from file names made of
the page number zero-padded to 4 digits plus `.txt`; and the page numbers
of one interval are visited in strictly ascending order. -/
theorem C2_range_reader_pages (fs : List Char → Option (List (List Char)))
    (rs : List (Nat × Nat))
    (h : ∀ p ∈ rs, ∀ i ∈ natRangeIncl p.1 p.2,
      (fs (padNat 4 i ++ ".txt".data)).isSome) :
    rangeReader fs (rs.map fun p => [Int.ofNat p.1, Int.ofNat p.2]) =
      .ok (rs.flatMap fun p => (natRangeIncl p.1 p.2).flatMap fun i =>
        ((fs (padNat 4 i ++ ".txt".data)).getD []).map pyStrip) ∧
    ∀ a b : Nat, List.Pairwise (· < ·) (natRangeIncl a b) := by
  constructor
  · induction rs with
    | nil => rfl
    | cons p rs ih =>
      have hpages : ∀ i ∈ intRange (Int.ofNat p.1) (Int.ofNat p.2 + 1),
          (fs (formatPy04 i ++ ".txt".data)).isSome := by
        intro i hi
        rw [intRange_ofNat] at hi
        obtain ⟨j, hj, rfl⟩ := List.mem_map.mp hi
        rw [formatPy04_ofNat]
        exact h p (by simp) j hj
      have hhead := readPages_ok fs _ hpages
      have hrest := ih (fun q hq => h q (by simp [hq]))
      unfold rangeReader
      simp only [List.map_cons]
      rw [show (([Int.ofNat p.1, Int.ofNat p.2] : List Int).headD 0) =
        Int.ofNat p.1 from rfl,
        show (([Int.ofNat p.1, Int.ofNat p.2] : List Int).getD 1 0) =
        Int.ofNat p.2 from rfl]
      rw [hhead, hrest]
      simp only [Except.ok.injEq]
      rw [List.flatMap_cons]
      congr 1
      rw [intRange_ofNat, List.flatMap_map]
      apply List.flatMap_congr
      intro i _
      rw [formatPy04_ofNat]
  · intro a b
    unfold natRangeIncl
    rw [List.pairwise_map]
    apply List.Pairwise.imp _ (List.pairwise_lt_range _)
    intro x y hxy
    omega

theorem C2_range_reader_pages_witness :
    (∀ p ∈ [((1 : Nat), (2 : Nat))], ∀ i ∈ natRangeIncl p.1 p.2,
      (fsW (padNat 4 i ++ ".txt".data)).isSome) ∧
    rangeReader fsW ([((1 : Nat), (2 : Nat))].map fun p =>
        [Int.ofNat p.1, Int.ofNat p.2]) =
      .ok ([((1 : Nat), (2 : Nat))].flatMap fun p =>
        (natRangeIncl p.1 p.2).flatMap fun i =>
          ((fsW (padNat 4 i ++ ".txt".data)).getD []).map pyStrip) :=
  ⟨by decide, (C2_range_reader_pages fsW _ (by decide)).1⟩

theorem parseLoop_indices :
    ∀ (lines : List (List Char)) (i : Nat) (cs : List RuneChapter),
      parseLoop lines i = .ok cs →
      cs.map (·.index) = List.range' i cs.length := by
  intro lines
  induction lines with
  | nil =>
    intro i cs h
    simp only [parseLoop, Except.ok.injEq] at h
    subst h
    rfl
  | cons line rest ih =>
    intro i cs h
    simp only [parseLoop] at h
    split at h
    · exact ih i cs h
    · split at h
      · split at h
        · split at h
          · split at h
            · simp only [Except.ok.injEq] at h
              subst h
              simp only [List.map_cons, List.length_cons, List.range']
              exact congrArg _ (ih (i + 1) _ (by assumption))
            · exact absurd h (by simp)
            · exact absurd h (by simp)
          · split at h
            · exact ih i cs h
            · exact absurd h (by simp)
        · exact absurd h (by simp)
      · exact ih i cs h

/-- C8: chapters parsed from the index file carry consecutive indices
0, 1, 2, ... in file order; a subchapter line (type field `-`) is skipped
without consuming an index; a chapter's id is `chapter` plus its index
zero-padded to 4 digits, and its file name is the id plus `.xhtml`. -/
theorem C8_chapter_indices (lines : List (List Char)) (cs : List RuneChapter)
    (h : parseArticles lines = .ok cs) :
    cs.map (·.index) = List.range cs.length ∧
    (∀ c : EPubChapter,
      c.chId = "chapter".data ++ padNat 4 c.index ∧
      c.filename = "chapter".data ++ padNat 4 c.index ++ ".xhtml".data) ∧
    (∀ (l : List Char) (rest : List (List Char)) (i : Nat) (t r : List Char),
      (splitCharLimit '|' 2 (processedLine l)).map pyStrip = ["-".data, t, r] →
      (processedLine l).isEmpty = false →
      (processedLine l).contains '|' = true →
      parseLoop (l :: rest) i = parseLoop rest i) := by
  refine ⟨?_, ?_, ?_⟩
  · rw [List.range_eq_range']
    exact parseLoop_indices lines 0 cs h
  · intro c
    constructor
    · show "chapter".data ++ formatPy04 (Int.ofNat c.index) = _
      rw [formatPy04_ofNat]
    · show ("chapter".data ++ formatPy04 (Int.ofNat c.index)) ++ _ = _
      rw [formatPy04_ofNat, List.append_assoc]
  · intro l rest i t r hsplit hempty hbar
    conv =>
      lhs
      simp only [parseLoop]
    rw [show pyStrip (l.takeWhile (· ≠ '#')) = processedLine l from rfl]
    simp [hempty, hbar, hsplit]

theorem C8_chapter_indices_witness :
    (parseArticles (["|A|1".data, "-|Sub|2".data, "index|B|3".data]) =
      .ok [⟨ChapterType.REGULAR, 0, "A".data, [[1, 1]]⟩,
           ⟨ChapterType.INDEX, 1, "B".data, [[3, 3]]⟩]) ∧
    ([⟨ChapterType.REGULAR, 0, "A".data, [[1, 1]]⟩,
      ⟨ChapterType.INDEX, 1, "B".data, [[3, 3]]⟩] :
        List RuneChapter).map (·.index) = List.range 2 :=
  ⟨by decide, by
    have h := C8_chapter_indices
      ["|A|1".data, "-|Sub|2".data, "index|B|3".data]
      [⟨ChapterType.REGULAR, 0, "A".data, [[1, 1]]⟩,
       ⟨ChapterType.INDEX, 1, "B".data, [[3, 3]]⟩] (by decide)
    simpa using h.1⟩

theorem splitChar_ne_nil (sep : Char) (l : List Char) :
    splitChar sep l ≠ [] := by
  induction l with
  | nil => simp [splitChar]
  | cons c l ih =>
    simp only [splitChar]
    rcases h : splitChar sep l with _ | ⟨h1, t⟩
    · exact absurd h ih
    · by_cases hcs : c = sep <;> simp [hcs]

theorem splitChar_eq (sep : Char) (l : List Char) :
    splitChar sep l =
      match l.dropWhile (· ≠ sep) with
      | [] => [l]
      | _ :: rest => l.takeWhile (· ≠ sep) :: splitChar sep rest := by
  induction l with
  | nil => rfl
  | cons c l ih =>
    by_cases hc : c = sep
    · subst hc
      simp only [splitChar, List.dropWhile_cons, List.takeWhile_cons]
      rcases h : splitChar c l with _ | ⟨h1, t⟩
      · exact absurd h (splitChar_ne_nil c l)
      · simp
        exact h.symm
    · simp only [splitChar, List.dropWhile_cons, List.takeWhile_cons]
      rw [ih]
      rcases h : l.dropWhile (· ≠ sep) with _ | ⟨d, rest⟩
      · simp [hc]
      · simp [hc]

theorem splitChar_of_forall_ne (sep : Char) (l : List Char)
    (h : ∀ c ∈ l, c ≠ sep) : splitChar sep l = [l] := by
  rw [splitChar_eq]
  have hd : l.dropWhile (· ≠ sep) = [] := by
    rw [List.dropWhile_eq_nil_iff]
    intro x hx
    simpa using h x hx
  rw [hd]

theorem splitChar_pair (sep : Char) (l a b : List Char)
    (h : splitChar sep l = [a, b]) :
    l.takeWhile (· ≠ sep) = a ∧ (l.dropWhile (· ≠ sep)).tail = b := by
  rw [splitChar_eq] at h
  rcases hd : l.dropWhile (· ≠ sep) with _ | ⟨d, rest⟩
  · rw [hd] at h
    simp at h
  · rw [hd] at h
    simp only [List.cons.injEq] at h
    obtain ⟨ha, hrest⟩ := h
    refine ⟨ha, ?_⟩
    rw [splitChar_eq] at hrest
    rcases hd2 : rest.dropWhile (· ≠ sep) with _ | ⟨d2, rest2⟩
    · rw [hd2] at hrest
      simp only [List.cons.injEq] at hrest
      simp [hrest.1]
    · rw [hd2] at hrest
      simp only [List.cons.injEq] at hrest
      exact absurd hrest.2 (splitChar_ne_nil sep rest2)

theorem isDigit_not_pyWs (c : Char) (h : c.isDigit = true) : pyWs c = false := by
  rcases hb : pyWs c
  · rfl
  · exfalso
    simp only [pyWs, Bool.or_eq_true, decide_eq_true_eq] at hb
    rcases hb with ((((rfl | rfl) | rfl) | rfl) | rfl) | rfl <;>
      exact absurd h (by decide)

theorem isDigit_ne (c : Char) (h : c.isDigit = true) (d : Char)
    (hd : d.isDigit = false) : c ≠ d := by
  intro he
  rw [he] at h
  rw [h] at hd
  cases hd

theorem pyStrip_of_no_ws (l : List Char) (h : ∀ c ∈ l, pyWs c = false) :
    pyStrip l = l := by
  unfold pyStrip
  have h1 : l.dropWhile pyWs = l := by
    rw [List.dropWhile_eq_self_iff]
    intro hl
    simp only [Bool.not_eq_true, List.get_eq_getElem]
    exact h _ (List.getElem_mem _)
  rw [h1]
  have h2 : l.reverse.dropWhile pyWs = l.reverse := by
    rw [List.dropWhile_eq_self_iff]
    intro hl
    simp only [Bool.not_eq_true, List.get_eq_getElem]
    apply h
    apply List.mem_reverse.mp
    exact List.getElem_mem _
  rw [h2, List.reverse_reverse]

theorem pyDigits_digits (t : List Char) (hne : t ≠ [])
    (hd : t.all Char.isDigit = true) : pyDigits t = some (digVal t) := by
  unfold pyDigits
  have hsp : splitChar '_' t = [t] := by
    apply splitChar_of_forall_ne
    intro c hc
    exact isDigit_ne c (List.all_eq_true.mp hd c hc) '_' (by decide)
  rw [hsp]
  have hfil : t.filter (fun x => !decide (x = '_')) = t := by
    rw [List.filter_eq_self]
    intro c hc
    simpa using isDigit_ne c (List.all_eq_true.mp hd c hc) '_' (by decide)
  simp [hne, hd, hfil, List.isEmpty_iff]

theorem pyInt_digits (t : List Char) (hne : t ≠ [])
    (hd : t.all Char.isDigit = true) :
    pyInt t = some (Int.ofNat (digVal t)) := by
  have hstrip : pyStrip t = t := by
    apply pyStrip_of_no_ws
    intro c hc
    exact isDigit_not_pyWs c (List.all_eq_true.mp hd c hc)
  simp only [pyInt, hstrip]
  split
  · exact absurd (List.all_eq_true.mp hd '+' (by simp)) (by decide)
  · exact absurd (List.all_eq_true.mp hd '-' (by simp)) (by decide)
  · rw [pyDigits_digits t hne hd]
    rfl

theorem dropWhile_ne_of_contains (sep : Char) (l : List Char)
    (h : l.contains sep = true) : l.dropWhile (· ≠ sep) ≠ [] := by
  intro hnil
  rw [List.dropWhile_eq_nil_iff] at hnil
  have hm : sep ∈ l := by simpa using h
  have := hnil sep hm
  simp at this

theorem parseRanges_go_wf (ts : List (List Char)) (h : ts.all tokenWF = true) :
    parseRanges.go ts = .ok (ts.map specToken) := by
  induction ts with
  | nil => rfl
  | cons t ts ih =>
    have ht : tokenWF t = true := List.all_eq_true.mp h t (by simp)
    have hrest : parseRanges.go ts = .ok (ts.map specToken) :=
      ih (List.all_eq_true.mpr fun x hx => List.all_eq_true.mp h x (by simp [hx]))
    simp only [parseRanges.go, hrest]
    by_cases hc : t.contains '-' = true
    · unfold tokenWF at ht
      rcases hsp : splitChar '-' t with _ | ⟨a, l1⟩
      · exact absurd hsp (splitChar_ne_nil '-' t)
      · rcases l1 with _ | ⟨b, l2⟩
        · -- a lone part despite a `-` being present: impossible
          exfalso
          obtain ⟨d, rest, hdrop⟩ :=
            List.exists_cons_of_ne_nil (dropWhile_ne_of_contains '-' t hc)
          rw [splitChar_eq, hdrop] at hsp
          simp only [List.cons.injEq] at hsp
          exact splitChar_ne_nil '-' rest hsp.2
        · rcases l2 with _ | ⟨e, l3⟩
          · rw [hsp] at ht
            simp only [Bool.and_eq_true, Bool.not_eq_true'] at ht
            obtain ⟨⟨⟨hane, had⟩, hbne⟩, hbd⟩ := ht
            have hane' : a ≠ [] := by
              intro hh; rw [hh] at hane; simp at hane
            have hbne' : b ≠ [] := by
              intro hh; rw [hh] at hbne; simp at hbne
            obtain ⟨hta, htb⟩ := splitChar_pair '-' t a b hsp
            rw [if_pos hc]
            simp only [List.foldr_cons, List.foldr_nil]
            rw [pyInt_digits b hbne' hbd, pyInt_digits a hane' had]
            simp only [specToken, List.map_cons, Except.ok.injEq, List.cons.injEq]
            refine ⟨?_, trivial⟩
            rw [if_pos hc, hta, htb]
          · rw [hsp] at ht
            simp at ht
    · have hsp : splitChar '-' t = [t] := by
        apply splitChar_of_forall_ne
        intro c hcm
        intro hce
        subst hce
        exact hc (by simpa using hcm)
      unfold tokenWF at ht
      rw [hsp] at ht
      simp only [Bool.and_eq_true, Bool.not_eq_true'] at ht
      obtain ⟨htne, htd⟩ := ht
      have htne' : t ≠ [] := by
        intro hh; rw [hh] at htne; simp at htne
      rw [if_neg hc]
      rw [pyInt_digits t htne' htd]
      simp only [specToken, List.map_cons, Except.ok.injEq, List.cons.injEq]
      refine ⟨?_, trivial⟩
      rw [if_neg hc]

theorem parseRanges_wf (r : List Char) (h : (splitWs r).all tokenWF = true) :
    parseRanges r = .ok ((splitWs r).map specToken) :=
  parseRanges_go_wf (splitWs r) h

theorem splitCharLimit_two (p : List Char) (hb : p.contains '|' = true) :
    splitCharLimit '|' 2 p =
      if ((p.dropWhile (· ≠ '|')).tail).contains '|' = true then
        [p.takeWhile (· ≠ '|'),
         ((p.dropWhile (· ≠ '|')).tail).takeWhile (· ≠ '|'),
         (((p.dropWhile (· ≠ '|')).tail).dropWhile (· ≠ '|')).tail]
      else [p.takeWhile (· ≠ '|'), (p.dropWhile (· ≠ '|')).tail] := by
  obtain ⟨d, post1, hdrop⟩ :=
    List.exists_cons_of_ne_nil (dropWhile_ne_of_contains '|' p hb)
  rw [hdrop]
  simp only [List.tail_cons]
  show (match p.dropWhile (· ≠ '|') with
    | [] => [p]
    | _ :: post => p.takeWhile (· ≠ '|') :: splitCharLimit '|' 1 post) = _
  rw [hdrop]
  by_cases hb2 : post1.contains '|' = true
  · obtain ⟨d2, post2, hdrop2⟩ :=
      List.exists_cons_of_ne_nil (dropWhile_ne_of_contains '|' post1 hb2)
    rw [if_pos hb2, hdrop2]
    simp only [List.tail_cons]
    show (p.takeWhile (· ≠ '|') ::
      match post1.dropWhile (· ≠ '|') with
      | [] => [post1]
      | _ :: post => post1.takeWhile (· ≠ '|') :: splitCharLimit '|' 0 post) = _
    rw [hdrop2]
    rfl
  · rw [if_neg hb2]
    have hdrop2 : post1.dropWhile (· ≠ '|') = [] := by
      rw [List.dropWhile_eq_nil_iff]
      intro x hx
      have hxne : x ≠ '|' := by
        intro he
        subst he
        exact hb2 (by simpa using hx)
      simp [hxne]
    show (p.takeWhile (· ≠ '|') ::
      match post1.dropWhile (· ≠ '|') with
      | [] => [post1]
      | _ :: post => post1.takeWhile (· ≠ '|') :: splitCharLimit '|' 0 post) = _
    rw [hdrop2]

theorem parseLoop_wf :
    ∀ (lines : List (List Char)) (i : Nat),
      (∀ l ∈ lines, lineWF l = true) →
      ∃ cs, parseLoop lines i = .ok cs ∧
        cs.map (fun c => (c.title, c.ranges)) = lines.filterMap specLine := by
  intro lines
  induction lines with
  | nil => exact fun i _ => ⟨[], rfl, rfl⟩
  | cons l rest ih =>
    intro i h
    have hl : lineWF l = true := h l (List.mem_cons_self l rest)
    have hWFrest : ∀ x ∈ rest, lineWF x = true :=
      fun x hx => h x (List.mem_cons_of_mem l hx)
    have hproc : pyStrip (List.takeWhile (fun x => decide (x ≠ '#')) l) =
        processedLine l := rfl
    by_cases he : (processedLine l).isEmpty = true
    · obtain ⟨cs, hcs, hmap⟩ := ih i hWFrest
      refine ⟨cs, ?_, ?_⟩
      · show parseLoop (l :: rest) i = _
        simp only [parseLoop]
        rw [hproc, if_pos he]
        exact hcs
      · rw [List.filterMap_cons]
        have hnone : specLine l = none := by simp [specLine, he]
        rw [hnone]
        exact hmap
    · have he' : (processedLine l).isEmpty = false := Bool.eq_false_iff.mpr he
      by_cases hbar : (processedLine l).contains '|' = true
      · have hl' := hl
        unfold lineWF at hl'
        simp only [he', hbar, Bool.false_or, Bool.not_true] at hl'
        by_cases hb2 :
            ((processedLine l).dropWhile (· ≠ '|')).tail.contains '|' = true
        · rw [splitCharLimit_two _ hbar, if_pos hb2] at hl'
          simp only [List.map_cons, List.map_nil] at hl'
          rw [Bool.or_eq_true] at hl'
          rcases hl' with hdash | hrest2
          · -- subchapter line: skipped by the loop and by the spec
            have hdash' : pyStrip ((processedLine l).takeWhile (· ≠ '|')) =
                "-".data := by simpa using hdash
            obtain ⟨cs, hcs, hmap⟩ := ih i hWFrest
            refine ⟨cs, ?_, ?_⟩
            · show parseLoop (l :: rest) i = _
              simp only [parseLoop]
              rw [hproc, if_neg he, if_pos hbar, splitCharLimit_two _ hbar,
                if_pos hb2]
              simp only [List.map_cons, List.map_nil]
              rw [hdash']
              simp
              exact hcs
            · rw [List.filterMap_cons]
              have hnone : specLine l = none := by
                simp only [specLine, he', hbar]
                rw [hdash']
                simp
              rw [hnone]
              exact hmap
          · rw [Bool.and_eq_true, Bool.or_eq_true] at hrest2
            obtain ⟨hty, htok⟩ := hrest2
            have hranges := parseRanges_wf _ htok
            obtain ⟨cs, hcs, hmap⟩ := ih (i + 1) hWFrest
            have htyne : ¬(pyStrip ((processedLine l).takeWhile (· ≠ '|')) =
                "-".data) := by
              rcases hty with h0 | h0
              · rw [decide_eq_true_eq] at h0
                rw [h0]
                decide
              · rw [decide_eq_true_eq] at h0
                rw [h0]
                decide
            refine ⟨⟨if pyStrip ((processedLine l).takeWhile (· ≠ '|')) = []
                  then ChapterType.REGULAR else ChapterType.INDEX, i,
                pyStrip (((processedLine l).dropWhile (· ≠ '|')).tail.takeWhile
                  (· ≠ '|')),
                ((splitWs (pyStrip ((((processedLine l).dropWhile
                  (· ≠ '|')).tail.dropWhile (· ≠ '|')).tail))).map specToken)⟩
              :: cs, ?_, ?_⟩
            · show parseLoop (l :: rest) i = _
              simp only [parseLoop]
              rw [hproc, if_neg he, if_pos hbar, splitCharLimit_two _ hbar,
                if_pos hb2]
              simp only [List.map_cons, List.map_nil]
              have hcond : (decide (pyStrip ((processedLine l).takeWhile
                  (· ≠ '|')) = []) ||
                  decide (pyStrip ((processedLine l).takeWhile (· ≠ '|')) =
                  "index".data)) = true := by
                rcases hty with h0 | h0
                · rw [h0, Bool.true_or]
                · rw [h0, Bool.or_true]
              rw [hcond]
              simp only [if_true]
              rw [hranges, hcs]
            · rw [List.filterMap_cons]
              have hsome : specLine l =
                  some (pyStrip (((processedLine l).dropWhile
                    (· ≠ '|')).tail.takeWhile (· ≠ '|')),
                  (splitWs (pyStrip ((((processedLine l).dropWhile
                    (· ≠ '|')).tail.dropWhile (· ≠ '|')).tail))).map
                    specToken) := by
                simp only [specLine, he', hbar]
                rw [if_neg htyne]
                simp
              rw [hsome, List.map_cons, hmap]
        · exfalso
          rw [splitCharLimit_two _ hbar, if_neg hb2] at hl'
          simp at hl'
      · -- no `|`: the line is skipped
        have hbar2 : (processedLine l).contains '|' = false :=
          Bool.eq_false_iff.mpr hbar
        obtain ⟨cs, hcs, hmap⟩ := ih i hWFrest
        refine ⟨cs, ?_, ?_⟩
        · show parseLoop (l :: rest) i = _
          simp only [parseLoop]
          rw [hproc, if_neg he, if_neg hbar]
          exact hcs
        · rw [List.filterMap_cons]
          have hnone : specLine l = none := by
            have hmem : ¬('|' ∈ processedLine l) := by simpa using hbar2
            simp [specLine, he', hmem]
          rw [hnone]
          exact hmap

/-- C1: index-file parsing is line-oriented: per line the portion after
the first `#` is discarded and whitespace stripped; blank lines and lines
without `|` are skipped; the others are split on the first two `|` into a
type field, a title and a range expression, each whitespace-separated
token `a-b` of which yields the interval `[a, b]` and each lone number `n`
the degenerate interval `[n, n]` (stated for well-formed index files;
subchapter lines yield no chapter). -/
theorem C1_index_file_parsing (lines : List (List Char))
    (hwf : ∀ l ∈ lines, lineWF l = true) :
    ∃ cs, parseArticles lines = .ok cs ∧
      cs.map (fun c => (c.title, c.ranges)) = lines.filterMap specLine :=
  parseLoop_wf lines 0 hwf

theorem C1_index_file_parsing_witness :
    (∀ l ∈ ["# comment".data, "".data, "index| Foo |1-3 7".data,
        "-|Sub|2".data, "|Bar|4-5".data, "plain text".data],
      lineWF l = true) ∧
    ∃ cs,
      parseArticles ["# comment".data, "".data, "index| Foo |1-3 7".data,
        "-|Sub|2".data, "|Bar|4-5".data, "plain text".data] = .ok cs ∧
      cs.map (fun c => (c.title, c.ranges)) =
        ["# comment".data, "".data, "index| Foo |1-3 7".data,
          "-|Sub|2".data, "|Bar|4-5".data,
          "plain text".data].filterMap specLine :=
  ⟨by decide, C1_index_file_parsing _ (by decide)⟩

theorem errSkip (l : List Char) (rest : List (List Char)) (i : Nat)
    (hstep : parseLoop (l :: rest) i = parseLoop rest i)
    (hbad : badType l = false)
    (ihiff : (∃ e, parseLoop rest i = .error e) ↔ ∃ x ∈ rest, badType x = true)
    (iherr : ∀ e, parseLoop rest i = .error e →
      ∃ m, e = ParseErr.unknownChapter m) :
    ((∃ e, parseLoop (l :: rest) i = .error e) ↔
      ∃ x ∈ l :: rest, badType x = true) ∧
    (∀ e, parseLoop (l :: rest) i = .error e →
      ∃ m, e = ParseErr.unknownChapter m) := by
  rw [hstep]
  constructor
  · rw [ihiff]
    constructor
    · rintro ⟨x, hx, hb⟩
      exact ⟨x, List.mem_cons_of_mem _ hx, hb⟩
    · rintro ⟨x, hx, hb⟩
      rcases List.mem_cons.mp hx with rfl | hx'
      · rw [hbad] at hb
        cases hb
      · exact ⟨x, hx', hb⟩
  · exact iherr

theorem parseLoop_err :
    ∀ (lines : List (List Char)) (i : Nat),
      (∀ l ∈ lines, lineWFexceptType l = true) →
      ((∃ e, parseLoop lines i = .error e) ↔
        ∃ l ∈ lines, badType l = true) ∧
      (∀ e, parseLoop lines i = .error e →
        ∃ m, e = ParseErr.unknownChapter m) := by
  intro lines
  induction lines with
  | nil =>
    intro i _
    constructor
    · simp [parseLoop]
    · intro e he
      simp [parseLoop] at he
  | cons l rest ih =>
    intro i h
    have hl : lineWFexceptType l = true := h l (List.mem_cons_self l rest)
    have hWFrest : ∀ x ∈ rest, lineWFexceptType x = true :=
      fun x hx => h x (List.mem_cons_of_mem l hx)
    have hproc : pyStrip (List.takeWhile (fun x => decide (x ≠ '#')) l) =
        processedLine l := rfl
    obtain ⟨ihiff, iherr⟩ := ih i hWFrest
    obtain ⟨ihiff1, iherr1⟩ := ih (i + 1) hWFrest
    by_cases he : (processedLine l).isEmpty = true
    · refine errSkip l rest i ?_ ?_ ihiff iherr
      · simp only [parseLoop]
        rw [hproc, if_pos he]
      · simp [badType, he]
    · have he' : (processedLine l).isEmpty = false := Bool.eq_false_iff.mpr he
      by_cases hbar : (processedLine l).contains '|' = true
      · have hl' := hl
        unfold lineWFexceptType at hl'
        simp only [he', hbar, Bool.false_or, Bool.not_true] at hl'
        by_cases hb2 :
            ((processedLine l).dropWhile (· ≠ '|')).tail.contains '|' = true
        · rw [splitCharLimit_two _ hbar, if_pos hb2] at hl'
          simp only [List.map_cons, List.map_nil] at hl'
          by_cases hdash :
              pyStrip ((processedLine l).takeWhile (· ≠ '|')) = "-".data
          · -- subchapter line: skipped, and its type field is not bad
            refine errSkip l rest i ?_ ?_ ihiff iherr
            · simp only [parseLoop]
              rw [hproc, if_neg he, if_pos hbar, splitCharLimit_two _ hbar,
                if_pos hb2]
              simp only [List.map_cons, List.map_nil]
              rw [hdash]
              simp
            · simp only [badType, he', hbar]
              rw [splitCharLimit_two _ hbar, if_pos hb2]
              simp only [List.map_cons, List.map_nil]
              rw [hdash]
              simp
          · by_cases hgood : (decide (pyStrip ((processedLine l).takeWhile
                (· ≠ '|')) = []) ||
                decide (pyStrip ((processedLine l).takeWhile (· ≠ '|')) =
                "index".data)) = true
            · -- known type: ranges parse, the step mirrors the tail
              have htok : (splitWs (pyStrip ((((processedLine l).dropWhile
                  (· ≠ '|')).tail.dropWhile (· ≠ '|')).tail))).all tokenWF =
                  true := by
                rcases Bool.or_eq_true _ _ |>.mp hl' with hno | htok
                · rw [Bool.not_eq_true', Bool.or_eq_false_iff] at hno
                  rw [Bool.or_eq_true] at hgood
                  rcases hgood with h0 | h0
                  · rw [hno.1] at h0
                    cases h0
                  · rw [hno.2] at h0
                    cases h0
                · exact htok
              have hranges := parseRanges_wf _ htok
              have hbadl : badType l = false := by
                simp only [badType, he', hbar]
                rw [splitCharLimit_two _ hbar, if_pos hb2]
                simp only [List.map_cons, List.map_nil]
                rw [Bool.or_eq_true] at hgood
                rcases hgood with h0 | h0
                · rw [decide_eq_true_eq] at h0
                  simp only [ne_eq, decide_not] at h0
                  simp [h0]
                · rw [decide_eq_true_eq] at h0
                  simp only [ne_eq, decide_not] at h0
                  simp [h0]
              have hstep : ∀ res, parseLoop rest (i + 1) = res →
                  parseLoop (l :: rest) i =
                    (match res with
                     | .ok cs => .ok (⟨if pyStrip ((processedLine l).takeWhile
                          (· ≠ '|')) = [] then ChapterType.REGULAR
                          else ChapterType.INDEX, i,
                        pyStrip (((processedLine l).dropWhile
                          (· ≠ '|')).tail.takeWhile (· ≠ '|')),
                        (splitWs (pyStrip ((((processedLine l).dropWhile
                          (· ≠ '|')).tail.dropWhile (· ≠ '|')).tail))).map
                          specToken⟩ :: cs)
                     | .error e => .error e) := by
                intro res hres
                simp only [parseLoop]
                rw [hproc, if_neg he, if_pos hbar, splitCharLimit_two _ hbar,
                  if_pos hb2]
                simp only [List.map_cons, List.map_nil]
                rw [hgood]
                simp only [if_true]
                rw [hranges, hres]
                rcases res with cs | e <;> rfl
              rcases hres : parseLoop rest (i + 1) with e | cs
              · -- the tail errors: so does the whole, with the same error
                have hwhole := hstep _ hres
                constructor
                · constructor
                  · intro _
                    obtain ⟨x, hx, hb⟩ := ihiff1.mp ⟨e, hres⟩
                    exact ⟨x, List.mem_cons_of_mem _ hx, hb⟩
                  · intro _
                    exact ⟨e, hwhole⟩
                · intro e2 he2
                  rw [hwhole] at he2
                  cases he2
                  exact iherr1 e (by rw [hres])
              · -- the tail succeeds: so does the whole
                have hwhole := hstep _ hres
                constructor
                · constructor
                  · rintro ⟨e, hee⟩
                    rw [hwhole] at hee
                    cases hee
                  · rintro ⟨x, hx, hb⟩
                    rcases List.mem_cons.mp hx with rfl | hx'
                    · rw [hbadl] at hb
                      cases hb
                    · obtain ⟨e, hee⟩ := ihiff1.mpr ⟨x, hx', hb⟩
                      rw [hres] at hee
                      cases hee
                · intro e2 he2
                  rw [hwhole] at he2
                  cases he2
            · -- unknown type: the explicit exception is raised
              have hwhole : parseLoop (l :: rest) i =
                  .error (.unknownChapter (processedLine l)) := by
                simp only [parseLoop]
                rw [hproc, if_neg he, if_pos hbar, splitCharLimit_two _ hbar,
                  if_pos hb2]
                simp only [List.map_cons, List.map_nil]
                rw [Bool.eq_false_iff.mpr hgood]
                simp only [Bool.false_eq_true, if_false]
                rw [if_neg hdash]
              have hbadl : badType l = true := by
                simp only [badType, he', hbar]
                rw [splitCharLimit_two _ hbar, if_pos hb2]
                simp only [List.map_cons, List.map_nil]
                rw [Bool.or_eq_false_iff.mp (Bool.eq_false_iff.mpr hgood)
                  |>.1, Bool.or_eq_false_iff.mp (Bool.eq_false_iff.mpr hgood)
                  |>.2]
                have hdash2 := hdash
                simp only [ne_eq, decide_not] at hdash2
                simp [hdash2]
              constructor
              · constructor
                · intro _
                  exact ⟨l, List.mem_cons_self l rest, hbadl⟩
                · intro _
                  exact ⟨_, hwhole⟩
              · intro e2 he2
                rw [hwhole] at he2
                cases he2
                exact ⟨_, rfl⟩
        · exfalso
          rw [splitCharLimit_two _ hbar, if_neg hb2] at hl'
          simp at hl'
      · have hbar2 : (processedLine l).contains '|' = false :=
          Bool.eq_false_iff.mpr hbar
        refine errSkip l rest i ?_ ?_ ihiff iherr
        · simp only [parseLoop]
          rw [hproc, if_neg he, if_neg hbar]
        · have hmem : ¬('|' ∈ processedLine l) := by simpa using hbar2
          simp [badType, hmem]

/-- C6, counterexample to the claim as stated: the file whose only line is
`|T|x` has an empty (hence valid) type field, yet parsing raises — `int("x")`
is a `ValueError`. So "raises if and only if a type field is invalid" fails. -/
theorem C6_counterexample_valueError :
    parseArticles ["|T|x".data] = .error ParseErr.valueError ∧
    typeFieldOf "|T|x".data = [] := by
  constructor
  · decide
  · decide

/-- C6 (amended): for lines well formed apart from their type field, parsing
raises exactly when some line's type field is none of the empty string,
`index`, `-`, and the exception raised is then the explicit
`Exception("Unknown chapter definition ...")`; malformed range tokens or a
line with a single `|` can additionally raise `ValueError`; no exception is
caught, so a parse error surfaces as the error of `build_epub`. -/
theorem C6_unknown_chapter_errors (lines : List (List Char))
    (h : ∀ l ∈ lines, lineWFexceptType l = true) :
    ((∃ e, parseArticles lines = .error e) ↔
      ∃ l ∈ lines, badType l = true) ∧
    (∀ e, parseArticles lines = .error e →
      ∃ m, e = ParseErr.unknownChapter m) ∧
    (∀ (bn : List Char) (author : String) (w : World) (mc ac : String)
        (e : ParseErr),
      w.unpacked.lookup "Metadata".data = some mc →
      (parseMetadata (pyLines mc.data)).lookup "TITLE".data ≠ none →
      w.unpacked.lookup "Articles.lst".data = some ac →
      parseArticles (pyLines ac.data) = .error e →
      buildW bn author w = .error (.parse e)) := by
  obtain ⟨hiff, herr⟩ := parseLoop_err lines 0 h
  refine ⟨hiff, herr, ?_⟩
  intro bn author w mc ac e hmc htitle hac hperr
  obtain ⟨t, ht⟩ := Option.ne_none_iff_exists'.mp htitle
  simp only [buildW, hmc, ht, hac, hperr]

theorem C6_unknown_chapter_errors_witness :
    (∀ l ∈ ["|A|1".data, "strange|T|2".data], lineWFexceptType l = true) ∧
    ((∃ e, parseArticles ["|A|1".data, "strange|T|2".data] = .error e) ↔
      ∃ l ∈ ["|A|1".data, "strange|T|2".data], badType l = true) :=
  ⟨by decide, (C6_unknown_chapter_errors _ (by decide)).1⟩

theorem lookup_none_of_all_ne {β : Type} (es : List (List Char × β))
    (k : List Char) (h : ∀ e ∈ es, e.1 ≠ k) : es.lookup k = none := by
  induction es with
  | nil => rfl
  | cons e es ih =>
    have hne : e.1 ≠ k := h e (by simp)
    have hbeq : (k == e.1) = false := by
      simp only [beq_eq_false_iff_ne, ne_eq]
      exact fun hh => hne hh.symm
    simp only [List.lookup, hbeq]
    exact ih (fun x hx => h x (by simp [hx]))

theorem lookup_filter_ne {β : Type} (fs : List (List Char × β))
    (k k2 : List Char) (hne : k2 ≠ k) :
    (fs.filter (fun e => !(e.1 == k))).lookup k2 = fs.lookup k2 := by
  induction fs with
  | nil => rfl
  | cons e fs ih =>
    rcases e with ⟨ek, ev⟩
    by_cases h1 : ek = k
    · subst h1
      have h2 : (k2 == ek) = false := by
        simp only [beq_eq_false_iff_ne, ne_eq]
        exact hne
      simpa [List.filter_cons, List.lookup, h2] using ih
    · have hf : (ek == k) = false := by simp [h1]
      by_cases h2 : k2 = ek
      · subst h2
        simp [List.filter_cons, hf, List.lookup]
      · have hb2 : (k2 == ek) = false := by simp [h2]
        simpa [List.filter_cons, hf, List.lookup, hb2] using ih

theorem lookup_setFile {β : Type} (fs : List (List Char × β))
    (k k2 : List Char) (v : β) :
    (setFile fs k v).lookup k2 =
      if k2 = k then some v else fs.lookup k2 := by
  unfold setFile
  by_cases hk : k2 = k
  · subst hk
    simp [List.lookup]
  · have hb : (k2 == k) = false := by simp [hk]
    simp only [List.lookup, hb, if_neg hk]
    exact lookup_filter_ne fs k k2 hk

theorem downloadStep_exists (v : World) (item : DownloadItem)
    (h : (v.downloaded.lookup item.zip_filename).isSome = true) :
    downloadStep v item = .ok v := by
  unfold downloadStep
  rw [if_pos h]

theorem downloadStep_keeps (v v₂ : World) (item : DownloadItem)
    (h : downloadStep v item = .ok v₂) :
    (∀ k, (v.downloaded.lookup k).isSome = true →
      (v₂.downloaded.lookup k).isSome = true) ∧
    (v₂.downloaded.lookup item.zip_filename).isSome = true := by
  unfold downloadStep at h
  split at h
  · cases h
    exact ⟨fun k hk => hk, by assumption⟩
  · dsimp only at h
    split at h
    · cases h
      constructor
      · intro k hk
        rw [lookup_setFile]
        split
        · rfl
        · exact hk
      · rw [lookup_setFile]
        simp
    · split at h
      · cases h
        constructor
        · intro k hk
          rw [lookup_setFile]
          split
          · rfl
          · exact hk
        · rw [lookup_setFile]
          simp
      · cases h

theorem downloadLoop_keeps :
    ∀ (items : List DownloadItem) (v v₂ : World),
      downloadLoop v items = .ok v₂ →
      (∀ k, (v.downloaded.lookup k).isSome = true →
        (v₂.downloaded.lookup k).isSome = true) ∧
      (∀ item ∈ items,
        (v₂.downloaded.lookup item.zip_filename).isSome = true) := by
  intro items
  induction items with
  | nil =>
    intro v v₂ h
    cases h
    exact ⟨fun k hk => hk, by simp⟩
  | cons item items ih =>
    intro v v₂ h
    unfold downloadLoop at h
    split at h
    · rename_i v1 hstep
      obtain ⟨hmono, hown⟩ := downloadStep_keeps v v1 item hstep
      obtain ⟨hmono2, hall⟩ := ih v1 v₂ h
      refine ⟨fun k hk => hmono2 k (hmono k hk), ?_⟩
      intro x hx
      rcases List.mem_cons.mp hx with rfl | hx'
      · exact hmono2 _ hown
      · exact hall x hx'
    · cases h

theorem downloadLoop_skip :
    ∀ (items : List DownloadItem) (v : World),
      (∀ item ∈ items,
        (v.downloaded.lookup item.zip_filename).isSome = true) →
      downloadLoop v items = .ok v := by
  intro items
  induction items with
  | nil => intro v _; rfl
  | cons item items ih =>
    intro v h
    unfold downloadLoop
    rw [downloadStep_exists v item (h item (by simp))]
    exact ih v (fun x hx => h x (by simp [hx]))

/-- C10: a download item whose archive already exists in the downloaded
directory triggers no network request and leaves every file unchanged
(the step returns the state untouched); consequently a second `download`
after a successful one changes no downloaded file and logs no new request. -/
theorem C10_download_skips_existing (bn : List Char) (w w' : World)
    (h : downloadW bn w = .ok w') :
    (∀ (v : World) (item : DownloadItem),
      (v.downloaded.lookup item.zip_filename).isSome = true →
      downloadStep v item = .ok v) ∧
    ∃ w'', downloadW bn w' = .ok w'' ∧
      w''.downloaded = w'.downloaded ∧ w''.requests = w'.requests := by
  refine ⟨downloadStep_exists, ?_⟩
  unfold downloadW at h
  split at h
  · rename_i w1 hloop
    cases h
    have hall := (downloadLoop_keeps _ w w1 hloop).2
    have hskip : downloadLoop
        { w1 with trace := w1.trace ++ [Stage.download] }
        (getDownloadItems bn) = .ok
        { w1 with trace := w1.trace ++ [Stage.download] } :=
      downloadLoop_skip _ _ (fun item hi => hall item hi)
    refine ⟨{ w1 with
        trace := (w1.trace ++ [Stage.download]) ++ [Stage.download] },
      ?_, rfl, rfl⟩
    unfold downloadW
    rw [hskip]
  · cases h

theorem C10_download_skips_existing_witness :
    downloadW "bk".data wHave = .ok { wHave with trace := [Stage.download] } ∧
    ∃ w'', downloadW "bk".data { wHave with trace := [Stage.download] } =
        .ok w'' ∧
      w''.downloaded =
        ({ wHave with trace := [Stage.download] } : World).downloaded ∧
      w''.requests =
        ({ wHave with trace := [Stage.download] } : World).requests :=
  ⟨rfl, (C10_download_skips_existing "bk".data wHave _ rfl).2⟩

theorem downloadStep_tc (v v₂ : World) (item : DownloadItem)
    (h : downloadStep v item = .ok v₂) :
    v₂.trace = v.trace ∧ v₂.cwd = v.cwd := by
  unfold downloadStep at h
  split at h
  · cases h
    exact ⟨rfl, rfl⟩
  · dsimp only at h
    split at h
    · cases h
      exact ⟨rfl, rfl⟩
    · split at h
      · cases h
        exact ⟨rfl, rfl⟩
      · cases h

theorem downloadLoop_tc :
    ∀ (items : List DownloadItem) (v v₂ : World),
      downloadLoop v items = .ok v₂ →
      v₂.trace = v.trace ∧ v₂.cwd = v.cwd := by
  intro items
  induction items with
  | nil =>
    intro v v₂ h
    cases h
    exact ⟨rfl, rfl⟩
  | cons item items ih =>
    intro v v₂ h
    unfold downloadLoop at h
    split at h
    · rename_i v1 hstep
      obtain ⟨ht1, hc1⟩ := downloadStep_tc v v1 item hstep
      obtain ⟨ht2, hc2⟩ := ih v1 v₂ h
      exact ⟨ht2.trans ht1, hc2.trans hc1⟩
    · cases h

theorem downloadW_tc (bn : List Char) (v v₂ : World)
    (h : downloadW bn v = .ok v₂) :
    v₂.trace = v.trace ++ [Stage.download] ∧ v₂.cwd = v.cwd := by
  unfold downloadW at h
  split at h
  · rename_i v1 hloop
    cases h
    obtain ⟨ht, hc⟩ := downloadLoop_tc _ v v1 hloop
    exact ⟨by rw [ht], hc⟩
  · cases h

theorem unpackW_tc (bn : List Char) (v v₂ : World)
    (h : unpackW bn v = .ok v₂) :
    v₂.trace = v.trace ++ [Stage.unpack] ∧ v₂.cwd = v.cwd := by
  unfold unpackW at h
  split at h
  · cases h
    exact ⟨rfl, rfl⟩
  · cases h

theorem buildW_tc (bn : List Char) (author : String) (v v₂ : World)
    (h : buildW bn author v = .ok v₂) :
    v₂.trace = v.trace ++ [Stage.build] ∧ v₂.cwd = v.cwd := by
  unfold buildW at h
  split at h
  · cases h
  · split at h
    · cases h
    · split at h
      · cases h
      · split at h
        · cases h
        · dsimp only at h
          split at h
          · cases h
          · cases h
            exact ⟨rfl, rfl⟩

/-- C7: every complete run performs download, unpack, build, package in
this order, each exactly once, sequentially (the trace of completed stages
is exactly these four appended to the initial trace). -/
theorem C7_pipeline_stage_order (idArg authorArg : Option String) (w : World)
    (h : (mainW idArg authorArg w).isOk = true) :
    traceOf (mainW idArg authorArg w) =
      w.trace ++ [Stage.download, Stage.unpack, Stage.build, Stage.package] ∧
    (w.trace = [] → ∀ s : Stage,
      (traceOf (mainW idArg authorArg w)).count s = 1) := by
  rcases idArg with _ | i
  · simp only [mainW] at h
    exact absurd h (by decide)
  rcases authorArg with _ | a
  · simp only [mainW] at h
    exact absurd h (by decide)
  have hmain : ∀ r, mainW (some i) (some a) w = r →
      traceOf r = w.trace ++
        [Stage.download, Stage.unpack, Stage.build, Stage.package] ∨
      r.isOk = false := by
    intro r hr
    unfold mainW at hr
    dsimp only at hr
    rcases hd : downloadW i.data w with e | w1 <;> rw [hd] at hr
    · right
      rw [← hr]
      rfl
    dsimp only at hr
    rcases hu : unpackW i.data w1 with e | w2 <;> rw [hu] at hr
    · right
      rw [← hr]
      rfl
    dsimp only at hr
    rcases hb : buildW i.data a w2 with e | w3 <;> rw [hb] at hr
    · right
      rw [← hr]
      rfl
    dsimp only at hr
    left
    rw [← hr]
    show (zipW i.data w3).trace = _
    have h1 := (downloadW_tc _ _ _ hd).1
    have h2 := (unpackW_tc _ _ _ hu).1
    have h3 := (buildW_tc _ _ _ _ hb).1
    show w3.trace ++ [Stage.package] = _
    rw [h3, h2, h1]
    simp
  rcases hmain _ rfl with hok | hbad
  · refine ⟨hok, ?_⟩
    intro h0 s
    rw [hok, h0]
    rcases s with _ | _ | _ | _ <;> rfl
  · rw [hbad] at h
    cases h

/-- C5: the CLI requires both flags (a successful run implies both were
given), and a complete run adds exactly one file to the working directory,
named `./<id>.epub`. -/
theorem C5_cli_and_output (idArg authorArg : Option String) (w : World)
    (h : (mainW idArg authorArg w).isOk = true) :
    ∃ i a, idArg = some i ∧ authorArg = some a ∧
      ∃ content, cwdOf (mainW idArg authorArg w) =
        setFile w.cwd (pjoin ".".data (i.data ++ ".epub".data)) content := by
  rcases idArg with _ | i
  · simp only [mainW] at h
    exact absurd h (by decide)
  rcases authorArg with _ | a
  · simp only [mainW] at h
    exact absurd h (by decide)
  refine ⟨i, a, rfl, rfl, ?_⟩
  revert h
  unfold mainW
  dsimp only
  rcases hd : downloadW i.data w with e | w1
  · intro h
    cases h
  dsimp only
  rcases hu : unpackW i.data w1 with e | w2
  · intro h
    cases h
  dsimp only
  rcases hb : buildW i.data a w2 with e | w3
  · intro h
    cases h
  dsimp only
  intro _
  refine ⟨zipEntries (buildDirOf w3.home i.data) w3.buildT, ?_⟩
  show (zipW i.data w3).cwd = _
  show setFile w3.cwd _ _ = _
  rw [(buildW_tc _ _ _ _ hb).2, (unpackW_tc _ _ _ hu).2,
    (downloadW_tc _ _ _ hd).2]

theorem C7_pipeline_stage_order_witness :
    (mainW (some "bk") (some "A") wRun).isOk = true ∧
    traceOf (mainW (some "bk") (some "A") wRun) =
      wRun.trace ++
        [Stage.download, Stage.unpack, Stage.build, Stage.package] :=
  ⟨rfl, (C7_pipeline_stage_order (some "bk") (some "A") wRun (by rfl)).1⟩

theorem C5_cli_and_output_witness :
    (mainW (some "bk") (some "A") wRun).isOk = true ∧
    ∃ i a, (some "bk" : Option String) = some i ∧
      (some "A" : Option String) = some a ∧
      ∃ content, cwdOf (mainW (some "bk") (some "A") wRun) =
        setFile wRun.cwd (pjoin ".".data (i.data ++ ".epub".data)) content :=
  ⟨rfl, C5_cli_and_output (some "bk") (some "A") wRun (by rfl)⟩

theorem pjoin_assoc (a b c : List Char) :
    pjoin (pjoin a b) c = pjoin a (b ++ '/' :: c) := by
  unfold pjoin
  rw [List.append_assoc]
  rfl

theorem zipArcName_pjoin (bd rel : List Char) (h : rel.head? ≠ some '/') :
    zipArcName bd.length (pjoin bd rel) = rel := by
  unfold zipArcName pjoin
  rw [show bd ++ '/' :: rel = bd ++ ('/' :: rel) from rfl, List.drop_left]
  rcases rel with _ | ⟨c, rest⟩
  · simp
  · have hc : ¬(c = '/') := by simpa using h
    simp [List.dropWhile_cons, hc]

theorem lookup_cons_self {β : Type} (k : List Char) (v : β)
    (es : List (List Char × β)) : ((k, v) :: es).lookup k = some v := by
  simp [List.lookup]

theorem lookup_cons_of_ne {β : Type} (k ek : List Char) (ev : β)
    (es : List (List Char × β)) (h : (k == ek) = false) :
    ((ek, ev) :: es).lookup k = es.lookup k := by
  simp [List.lookup, h]

set_option maxRecDepth 8192 in
/-- C4: the produced EPUB zip archive has an entry `mimetype` whose content
is exactly `application/epub+zip`, entries for the OPF manifest
(`OEBPS/book.opf`) and the NCX (`OEBPS/book.ncx`), and a
`META-INF/container.xml` entry whose content points at the OPF file. -/
theorem C4_zip_well_known_entries (home bn : List Char)
    (title author : String) (chapterOut : List (EPubChapter × String)) :
    (zipEntries (buildDirOf home bn)
        (buildFiles home bn title author chapterOut)).lookup
      "mimetype".data = some mimetypeContent ∧
    (zipEntries (buildDirOf home bn)
        (buildFiles home bn title author chapterOut)).lookup
      "OEBPS/book.opf".data =
      some (opfContent title author (chapterOut.map Prod.fst)) ∧
    (zipEntries (buildDirOf home bn)
        (buildFiles home bn title author chapterOut)).lookup
      "OEBPS/book.ncx".data =
      some (ncxContent title (chapterOut.map Prod.fst)) ∧
    (zipEntries (buildDirOf home bn)
        (buildFiles home bn title author chapterOut)).lookup
      "META-INF/container.xml".data = some containerXml ∧
    "full-path=\"OEBPS/book.opf\"".data <:+: containerXml.data := by
  have harc1 : zipArcName (buildDirOf home bn).length
      (pjoin (buildDirOf home bn) "mimetype".data) = "mimetype".data :=
    zipArcName_pjoin _ _ (by decide)
  have harc2 : zipArcName (buildDirOf home bn).length
      (pjoin (pjoin (buildDirOf home bn) "OEBPS".data) "book.opf".data) =
      "OEBPS/book.opf".data := by
    rw [pjoin_assoc, zipArcName_pjoin _ _ (by decide)]
    decide
  have harc3 : zipArcName (buildDirOf home bn).length
      (pjoin (pjoin (buildDirOf home bn) "OEBPS".data) "book.ncx".data) =
      "OEBPS/book.ncx".data := by
    rw [pjoin_assoc, zipArcName_pjoin _ _ (by decide)]
    decide
  have harc4 : zipArcName (buildDirOf home bn).length
      (pjoin (pjoin (buildDirOf home bn) "META-INF".data)
        "container.xml".data) = "META-INF/container.xml".data := by
    rw [pjoin_assoc, zipArcName_pjoin _ _ (by decide)]
    decide
  have harcCh : ∀ p : EPubChapter × String,
      zipArcName (buildDirOf home bn).length
        (pjoin (pjoin (buildDirOf home bn) "OEBPS".data) p.1.filename) =
      "OEBPS".data ++ '/' :: p.1.filename := by
    intro p
    rw [pjoin_assoc]
    exact zipArcName_pjoin _ _ (by
      rw [show ("OEBPS".data ++ '/' :: p.1.filename).head? = some 'O'
        from rfl]
      decide)
  simp only [zipEntries, buildFiles, List.map_cons, List.map_append,
    harc1, harc2, harc3, harc4, List.map_map]
  refine ⟨?_, ?_, ?_, ?_, by decide⟩
  · exact lookup_cons_self _ _ _
  · exact (lookup_cons_of_ne "OEBPS/book.opf".data "mimetype".data _ _
      (by decide)).trans (lookup_cons_self _ _ _)
  · exact ((lookup_cons_of_ne "OEBPS/book.ncx".data "mimetype".data _ _
      (by decide)).trans
      ((lookup_cons_of_ne "OEBPS/book.ncx".data "OEBPS/book.opf".data _ _
        (by decide)).trans (lookup_cons_self _ _ _)))
  · refine (lookup_cons_of_ne "META-INF/container.xml".data "mimetype".data
      _ _ (by decide)).trans ?_
    refine (lookup_cons_of_ne "META-INF/container.xml".data
      "OEBPS/book.opf".data _ _ (by decide)).trans ?_
    refine (lookup_cons_of_ne "META-INF/container.xml".data
      "OEBPS/book.ncx".data _ _ (by decide)).trans ?_
    rw [List.append_eq, List.lookup_append]
    rw [lookup_none_of_all_ne _ _ (by
      intro e he
      simp only [List.mem_map, Function.comp] at he
      obtain ⟨p, _, rfl⟩ := he
      rw [harcCh p]
      intro hh
      have hhead := congrArg List.head? hh
      simp at hhead)]
    rw [Option.none_or]
    exact lookup_cons_self _ _ _

end Runepub
